import Mathlib

/-!
Shallow embedding of the game-state classes of the cs4gamesolver repository
(`KaylesState.h`, `CrossoutState.cpp`, `Connect3State.h`) and proofs about the
spec's claims over them.

Conventions of the embedding:
* C++ `int` is modelled as `Int`, `unsigned int`/`size_t` indices as `Nat`;
  the small inputs used here are far from any machine-width overflow.
* A failing `assert( … )` is modelled by returning `none` from an
  `Option`-valued function; `none` means the C++ program aborts.
* `std::vector< bool > tray` is `List Bool`, `std::vector< int > pins` is
  `List Int`, indices are 0-based exactly as in the source.
* `std::equal( a.begin(), a.end(), b.begin() )` reads `a.length` elements of
  `b`; when `b` is shorter this is undefined behaviour in C++, modelled as
  `none`.
* In `assert( secondTheft<tray.size() )` the `int` operand is converted to
  the unsigned `size_type` by C++'s usual arithmetic conversions, so the
  assert passes exactly when `0 <= secondTheft-1 < tray.size()`: the
  single-theft sentinel value `-1` (from the default argument) always fails
  it, and every one-argument `CrossoutState( base, a )` construction aborts
  even though the next line `if( secondTheft>-1 )` is designed for that
  sentinel.
-/

/-- The `Score` enum shared verbatim by `KaylesState`, `CrossoutState` and
`Connect3State`: `LOSS=-1, TIE=0, VICTORY=1`. -/
inductive Score where
  | LOSS
  | TIE
  | VICTORY
deriving DecidableEq

/-- State of `class CrossoutState`: the immutable sum bound `MAX_SUM`, the
presence bitmap `tray`, the turn flag `ourTurn` and the cached `hashCode`. -/
structure CrossoutState where
  MAX_SUM : Int
  tray : List Bool
  ourTurn : Bool
  hashCode : Int
deriving DecidableEq

namespace CrossoutState

/-- Modelled from the spec: `CrossoutState.h` is absent from src/ (only
`CrossoutState.cpp` is present); the spec's Crossout rule "a move removes one
or two still-present numbers" fixes the class constant `MAX_TAKEN = 2`
(maximum numbers removed per move), mirroring `KaylesState::MAX_TAKEN`. -/
def MAX_TAKEN : Nat := 2

/-- Modelled from the spec: `CrossoutState.h` is absent from src/; the spec's
"removes one or two" rule fixes `MIN_TAKEN = 1`, mirroring
`KaylesState::MIN_TAKEN`. -/
def MIN_TAKEN : Nat := 1

/-- The loop body sum of `cacheHash`: `Σ tray[i] << i` over the tray,
little-endian. -/
def trayBits : List Bool → Int
  | [] => 0
  | b :: rest => (if b then 1 else 0) + 2 * trayBits rest

/-- `CrossoutState::cacheHash`:
`hashCode = abs( (ourTurn ? 1 : 0) << tray.size() + Σ tray[i] << i )`. -/
def cacheHash (tray : List Bool) (ourTurn : Bool) : Int :=
  |(if ourTurn then (1 : Int) else 0) * 2 ^ tray.length + trayBits tray|

/-- The initial constructor `CrossoutState( greedyDivide, highValue, weAreUp )`:
all of `1 .. highValue` start present. -/
def initial (greedyDivide highValue : Int) (weAreUp : Bool) : CrossoutState :=
  ⟨greedyDivide, List.replicate highValue.toNat true,
   weAreUp, cacheHash (List.replicate highValue.toNat true) weAreUp⟩

/-- The advancing constructor
`CrossoutState( baseState, firstTheft, secondTheft )`.  The default argument
`secondTheft = 0` lives in the missing `CrossoutState.h`; it is forced by the
one-argument call `CrossoutState( *this, first )` in `successors` together
with the body's treatment of `secondTheft - 1 = -1` as "no second theft".
`none` models a failing assertion.  In `assert( secondTheft<tray.size() )`
the `int` operand converts to the unsigned `size_type`, so the check passes
exactly when `0 ≤ s ∧ s < tray.size()`; in particular the sentinel `s = -1`
fails it and every single-theft construction aborts. -/
def advance (base : CrossoutState) (firstTheft secondTheft : Int) :
    Option CrossoutState :=
  let f : Int := firstTheft - 1
  let s : Int := secondTheft - 1
  if 0 ≤ f ∧ f < (base.tray.length : Int) then
    if 0 ≤ s ∧ s < (base.tray.length : Int) then
      if base.tray.getD f.toNat false = true then
        if s > -1 then
          if (base.tray.set f.toNat false).getD s.toNat false = true then
            some ⟨base.MAX_SUM, (base.tray.set f.toNat false).set s.toNat false,
                  !base.ourTurn,
                  cacheHash ((base.tray.set f.toNat false).set s.toNat false)
                    (!base.ourTurn)⟩
          else none
        else
          some ⟨base.MAX_SUM, base.tray.set f.toNat false, !base.ourTurn,
                cacheHash (base.tray.set f.toNat false) (!base.ourTurn)⟩
      else none
    else none
  else none

/-- The values taken by the outer loop variable of `successors`:
`first = 1` while `first <= tray.size() && first <= MAX_SUM`. -/
def firstRange (p : CrossoutState) : List Nat :=
  (List.range (min p.tray.length p.MAX_SUM.toNat)).map (· + 1)

/-- The values taken by the inner loop variable of `successors`:
`second = 1` while `second <= tray.size() && first + second <= MAX_SUM`. -/
def secondRange (p : CrossoutState) (first : Nat) : List Nat :=
  (List.range (min p.tray.length (p.MAX_SUM - (first : Int)).toNat)).map (· + 1)

/-- The inner loop of `successors`: for each admissible `second` with
`tray[second-1]` set, push `CrossoutState( *this, first, second )`. -/
def succInner (p : CrossoutState) (first : Nat) :
    List Nat → Option (List CrossoutState)
  | [] => some []
  | second :: rest =>
    if p.tray.getD (second - 1) false = true then
      (advance p (first : Int) (second : Int)).bind fun st =>
        (succInner p first rest).map fun l => st :: l
    else succInner p first rest

/-- The outer loop of `successors`: for each admissible `first` with
`tray[first-1]` set, push `CrossoutState( *this, first )` and then run the
inner loop. -/
def succOuter (p : CrossoutState) : List Nat → Option (List CrossoutState)
  | [] => some []
  | first :: rest =>
    if p.tray.getD (first - 1) false = true then
      (advance p (first : Int) 0).bind fun st =>
        (succInner p first (secondRange p first)).bind fun inner =>
          (succOuter p rest).map fun l => st :: (inner ++ l)
    else succOuter p rest

/-- `CrossoutState::successors`.  `none` models an abort via a failing
assertion inside one of the advancing-constructor calls. -/
def successors (p : CrossoutState) : Option (List CrossoutState) :=
  succOuter p (firstRange p)

/-- `CrossoutState::gameOver`: scans `tray[location]` only for
`location < tray.size() && location < MAX_TAKEN`. -/
def gameOver (p : CrossoutState) : Bool :=
  (List.range (min p.tray.length MAX_TAKEN)).all
    (fun location => !(p.tray.getD location false))

/-- `CrossoutState::scoreGame`. -/
def scoreGame (p : CrossoutState) : Score :=
  if p.gameOver then (if p.ourTurn then Score.LOSS else Score.VICTORY)
  else Score.TIE

/-- `CrossoutState::computersTurn`. -/
def computersTurn (p : CrossoutState) : Bool :=
  p.ourTurn

/-- `CrossoutState::hash`: returns the cached `hashCode`. -/
def hash (p : CrossoutState) : Int :=
  p.hashCode

/-- `CrossoutState::operator==`: compares `MAX_SUM`, then
`std::equal( this->tray.begin(), this->tray.end(), another.tray.begin() )`
(which reads `this->tray.size()` elements of `another.tray` and never checks
the sizes), then `ourTurn`.  `none` models the undefined behaviour of reading
past the end of a shorter `another.tray`. -/
def beq (p q : CrossoutState) : Option Bool :=
  if q.tray.length < p.tray.length then none
  else
    some (decide (p.MAX_SUM = q.MAX_SUM) && p.tray.isPrefixOf q.tray &&
      (p.ourTurn == q.ourTurn))

/-- The scanning loop of `areSubsequent` over both trays at once, carrying the
1-based value `n` of the current slot: returns `none` on the early
`return false` (something was UNcrossed), otherwise the final
`(count, sum)`. -/
def subseqScan : List Bool → List Bool → Nat → Option (Nat × Nat)
  | [], [], _ => some (0, 0)
  | a :: as, b :: bs, n =>
    if b = true ∧ a = false then none
    else
      match subseqScan as bs (n + 1) with
      | none => none
      | some (count, sum) =>
        if a = true ∧ b = false then some (count + 1, sum + n)
        else some (count, sum)
  | _, _, _ => none

/-- The final `return` of `areSubsequent`:
`count>=MIN_TAKEN && count<=MAX_TAKEN && sum<=first.MAX_SUM`, with `none`
propagating the loop's early `return false`. -/
def subseqCheck (M : Int) : Option (Nat × Nat) → Bool
  | none => false
  | some (count, sum) =>
    decide (MIN_TAKEN ≤ count ∧ count ≤ MAX_TAKEN ∧ (sum : Int) ≤ M)

/-- `CrossoutState::areSubsequent`. -/
def areSubsequent (first next : CrossoutState) : Bool :=
  if first.MAX_SUM ≠ next.MAX_SUM ∨ first.tray.length ≠ next.tray.length ∨
      first.ourTurn = next.ourTurn then
    false
  else
    subseqCheck first.MAX_SUM (subseqScan first.tray next.tray 1)

/-- The collection loop of `diff`: the 1-based positions where the two trays
differ, in increasing order, starting at slot value `n`. -/
def diffList : List Bool → List Bool → Nat → List Nat
  | a :: as, b :: bs, n =>
    if a ≠ b then n :: diffList as bs (n + 1) else diffList as bs (n + 1)
  | _, _, _ => []

/-- `CrossoutState::diff`: asserts `areSubsequent( first, next )` (modelled as
`none` on failure), then collects the differing 1-based positions. -/
def diff (first next : CrossoutState) : Option (List Nat) :=
  if areSubsequent first next = true then
    some (diffList first.tray next.tray 1)
  else none

end CrossoutState

/-- State of `class KaylesState`: pin counts per group, the turn flag and the
cached `hashCode`. -/
structure KaylesState where
  pins : List Int
  ourTurn : Bool
  hashCode : Int
deriving DecidableEq

namespace KaylesState

/-- `KaylesState::MAX_TAKEN` (`KaylesState.h` line 35). -/
def MAX_TAKEN : Int := 2

/-- `KaylesState::MIN_TAKEN` (`KaylesState.h` line 38). -/
def MIN_TAKEN : Int := 1

/-- Modelled from the spec: `KaylesState.cpp` (the out-of-line definition of
`KaylesState::gameOver`) is absent from src/; the header documents it as
"whether there are no pins left" and the spec as "all groups exhausted", i.e.
every stored pin count is zero. -/
def gameOver (p : KaylesState) : Bool :=
  p.pins.all (fun g => g == 0)

/-- `KaylesState::scoreGame` (`KaylesState.h` lines 194-200). -/
def scoreGame (p : KaylesState) : Score :=
  if p.gameOver then (if p.ourTurn then Score.LOSS else Score.VICTORY)
  else Score.TIE

/-- `KaylesState::computersTurn`. -/
def computersTurn (p : KaylesState) : Bool :=
  p.ourTurn

/-- `KaylesState::groupsOfPins`. -/
def groupsOfPins (p : KaylesState) : Nat :=
  p.pins.length

/-- `KaylesState::pinsInGroup`: `-1` when the group does not exist, otherwise
the stored count. -/
def pinsInGroup (p : KaylesState) (group : Nat) : Int :=
  if p.pins.length ≤ group then -1 else p.pins.getD group 0

/-- `KaylesState::hash`: returns the cached `hashCode`. -/
def hash (p : KaylesState) : Int :=
  p.hashCode

/-- `KaylesState::operator==`: turn, then the sizes, then
`std::equal( this->pins.begin(), this->pins.end(), another.pins.begin() )`
(safe here because the size comparison short-circuits first). -/
def beq (p q : KaylesState) : Bool :=
  p.ourTurn == q.ourTurn && p.pins.length == q.pins.length &&
    p.pins.isPrefixOf q.pins

end KaylesState

/-- State of `class Connect3State` (only the parts the claims touch are
exercised; the fields mirror the header's data members). -/
structure Connect3State where
  COLUMNS : Nat
  ELEMENTS : Nat
  mySymbol : Nat
  board : List (List Char)
  ourTurn : Bool
  finalOutcome : Score
  hashCode : Int

namespace Connect3State

/-- `Connect3State::hasSpaceAt`: `assert( column<COLUMNS )` (modelled as
`none` on failure), then `board[column].size()<ELEMENTS`. -/
def hasSpaceAt (s : Connect3State) (column : Nat) : Option Bool :=
  if column < s.COLUMNS then
    some (decide ((s.board.getD column []).length < s.ELEMENTS))
  else none

/-- `Connect3State::scoreGame`: returns the cached outcome. -/
def scoreGame (s : Connect3State) : Score :=
  s.finalOutcome

end Connect3State

/-! ### Helper lemmas about lists -/

lemma getD_set_self {α : Type} (l : List α) (i : Nat) (x d : α)
    (h : i < l.length) : (l.set i x).getD i d = x := by
  induction l generalizing i with
  | nil => simp at h
  | cons a as ih =>
    cases i with
    | zero => simp
    | succ n => simpa using ih n (by simpa using h)

lemma getD_set_ne {α : Type} (l : List α) (i j : Nat) (x d : α)
    (h : i ≠ j) : (l.set i x).getD j d = l.getD j d := by
  induction l generalizing i j with
  | nil => simp
  | cons a as ih =>
    cases i with
    | zero =>
      cases j with
      | zero => exact absurd rfl h
      | succ m => simp
    | succ n =>
      cases j with
      | zero => simp
      | succ m => simpa using ih n m (by omega)

lemma isPrefixOf_self {α : Type} [BEq α] [LawfulBEq α] (l : List α) :
    l.isPrefixOf l = true := by
  induction l with
  | nil => rfl
  | cons a as ih => simp [List.isPrefixOf, ih]

lemma eq_of_isPrefixOf_of_length {α : Type} [BEq α] [LawfulBEq α] :
    ∀ (a b : List α), a.isPrefixOf b = true → a.length = b.length → a = b
  | [], [], _, _ => rfl
  | [], _ :: _, _, hl => by simp at hl
  | _ :: _, [], hp, _ => by simp [List.isPrefixOf] at hp
  | x :: xs, y :: ys, hp, hl => by
    simp only [List.isPrefixOf, Bool.and_eq_true, beq_iff_eq] at hp
    have := eq_of_isPrefixOf_of_length xs ys hp.2 (by simpa using hl)
    simp [hp.1, this]

/-! ### Lemmas about the areSubsequent scan and the diff collection loop -/

namespace CrossoutState

lemma subseqScan_refl (t : List Bool) (n : Nat) :
    subseqScan t t n = some (0, 0) := by
  induction t generalizing n with
  | nil => rfl
  | cons a as ih => cases a <;> simp [subseqScan, ih]

lemma diffList_refl (t : List Bool) (n : Nat) : diffList t t n = [] := by
  induction t generalizing n with
  | nil => rfl
  | cons a as ih => simp [diffList, ih]

lemma subseqScan_set_one : ∀ (t : List Bool) (j n : Nat), j < t.length →
    t.getD j false = true → subseqScan t (t.set j false) n = some (1, n + j)
  | [], j, _, hj, _ => by simp at hj
  | a :: as, 0, n, _, ht => by
    have ha : a = true := by simpa using ht
    subst ha
    simp [subseqScan, subseqScan_refl]
  | a :: as, j + 1, n, hj, ht => by
    have h1 : j < as.length := by simpa using hj
    have h2 : as.getD j false = true := by simpa using ht
    have ih := subseqScan_set_one as j (n + 1) h1 h2
    cases a <;> simp [subseqScan, ih] <;> omega

lemma subseqScan_set_two : ∀ (t : List Bool) (j1 j2 n : Nat), j1 ≠ j2 →
    j1 < t.length → j2 < t.length → t.getD j1 false = true →
    t.getD j2 false = true →
    subseqScan t ((t.set j1 false).set j2 false) n = some (2, 2 * n + j1 + j2)
  | [], j1, _, _, _, hj1, _, _, _ => by simp at hj1
  | a :: as, 0, 0, n, hne, _, _, _, _ => absurd rfl hne
  | a :: as, 0, j2 + 1, n, _, _, hj2, ht1, ht2 => by
    have ha : a = true := by simpa using ht1
    subst ha
    have h1 : j2 < as.length := by simpa using hj2
    have h2 : as.getD j2 false = true := by simpa using ht2
    have ih := subseqScan_set_one as j2 (n + 1) h1 h2
    simp [subseqScan, ih]
    omega
  | a :: as, j1 + 1, 0, n, _, hj1, _, ht1, ht2 => by
    have ha : a = true := by simpa using ht2
    subst ha
    have h1 : j1 < as.length := by simpa using hj1
    have h2 : as.getD j1 false = true := by simpa using ht1
    have ih := subseqScan_set_one as j1 (n + 1) h1 h2
    simp [subseqScan, ih]
    omega
  | a :: as, j1 + 1, j2 + 1, n, hne, hj1, hj2, ht1, ht2 => by
    have ih := subseqScan_set_two as j1 j2 (n + 1) (by omega)
      (by simpa using hj1) (by simpa using hj2)
      (by simpa using ht1) (by simpa using ht2)
    cases a <;> simp [subseqScan, ih] <;> omega

lemma subseqScan_zero_inv : ∀ (t1 t2 : List Bool) (n s : Nat),
    subseqScan t1 t2 n = some (0, s) → t1 = t2 ∧ s = 0
  | [], [], _, s, h => by
    simp only [subseqScan, Option.some.injEq, Prod.mk.injEq] at h
    exact ⟨rfl, h.2.symm⟩
  | [], _ :: _, _, _, h => by simp [subseqScan] at h
  | _ :: _, [], _, _, h => by simp [subseqScan] at h
  | a :: as, b :: bs, n, s, h => by
    by_cases hc : b = true ∧ a = false
    · simp [subseqScan, hc] at h
    · rcases hscan : subseqScan as bs (n + 1) with _ | ⟨c, s'⟩
      · simp [subseqScan, hc, hscan] at h
      · by_cases hd : a = true ∧ b = false
        · simp [subseqScan, hc, hscan, hd] at h
        · simp [subseqScan, hc, hscan, hd] at h
          obtain ⟨hc0, hs0⟩ := h
          obtain ⟨hab, hz⟩ := subseqScan_zero_inv as bs (n + 1) s'
            (by rw [hscan, hc0])
          have : a = b := by
            cases a <;> cases b <;> simp_all
          simp [this, hab, ← hs0, hz]

lemma subseqScan_one_inv : ∀ (t1 t2 : List Bool) (n s : Nat),
    subseqScan t1 t2 n = some (1, s) →
    ∃ j, j < t1.length ∧ t1.getD j false = true ∧ t2 = t1.set j false ∧
      s = n + j ∧ diffList t1 t2 n = [n + j]
  | [], [], _, _, h => by
    simp only [subseqScan, Option.some.injEq, Prod.mk.injEq] at h
    omega
  | [], _ :: _, _, _, h => by simp [subseqScan] at h
  | _ :: _, [], _, _, h => by simp [subseqScan] at h
  | a :: as, b :: bs, n, s, h => by
    by_cases hc : b = true ∧ a = false
    · simp [subseqScan, hc] at h
    · rcases hscan : subseqScan as bs (n + 1) with _ | ⟨c, s'⟩
      · simp [subseqScan, hc, hscan] at h
      · by_cases hd : a = true ∧ b = false
        · simp only [subseqScan, if_neg hc, hscan, if_pos hd,
            Option.some.injEq, Prod.mk.injEq] at h
          obtain ⟨h1, h2⟩ := h
          have hc0 : c = 0 := by omega
          subst hc0
          obtain ⟨hab, hz⟩ := subseqScan_zero_inv as bs (n + 1) s' hscan
          have hne : a ≠ b := by rw [hd.1, hd.2]; simp
          refine ⟨0, by simp, by simpa using hd.1, ?_, by omega, ?_⟩
          · simp [hd.2, hab, List.set_cons_zero]
          · simp [diffList, hne, ← hab, diffList_refl]
        · simp only [subseqScan, if_neg hc, hscan, if_neg hd,
            Option.some.injEq, Prod.mk.injEq] at h
          obtain ⟨hc1, hs'⟩ := h
          subst hc1
          obtain ⟨j, hj, ht, ht2, hs, hdl⟩ :=
            subseqScan_one_inv as bs (n + 1) s' hscan
          have hab : a = b := by cases a <;> cases b <;> simp_all
          refine ⟨j + 1, by simpa using hj, by simpa using ht, ?_, by omega, ?_⟩
          · simp [List.set_cons_succ, ht2, hab]
          · have he : (n + 1) + j = n + (j + 1) := by omega
            simp [diffList, hab, hdl, he]

lemma subseqScan_two_inv : ∀ (t1 t2 : List Bool) (n s : Nat),
    subseqScan t1 t2 n = some (2, s) →
    ∃ j1 j2, j1 < j2 ∧ j2 < t1.length ∧ t1.getD j1 false = true ∧
      t1.getD j2 false = true ∧ t2 = (t1.set j1 false).set j2 false ∧
      s = (n + j1) + (n + j2) ∧ diffList t1 t2 n = [n + j1, n + j2]
  | [], [], _, _, h => by
    simp only [subseqScan, Option.some.injEq, Prod.mk.injEq] at h
    omega
  | [], _ :: _, _, _, h => by simp [subseqScan] at h
  | _ :: _, [], _, _, h => by simp [subseqScan] at h
  | a :: as, b :: bs, n, s, h => by
    by_cases hc : b = true ∧ a = false
    · simp [subseqScan, hc] at h
    · rcases hscan : subseqScan as bs (n + 1) with _ | ⟨c, s'⟩
      · simp [subseqScan, hc, hscan] at h
      · by_cases hd : a = true ∧ b = false
        · simp only [subseqScan, if_neg hc, hscan, if_pos hd,
            Option.some.injEq, Prod.mk.injEq] at h
          obtain ⟨h1, h2⟩ := h
          have hc1 : c = 1 := by omega
          subst hc1
          obtain ⟨j, hj, ht, ht2, hs, hdl⟩ :=
            subseqScan_one_inv as bs (n + 1) s' hscan
          have hne : a ≠ b := by rw [hd.1, hd.2]; simp
          refine ⟨0, j + 1, by omega, by simpa using hj, by simpa using hd.1,
            by simpa using ht, ?_, by omega, ?_⟩
          · simp [List.set_cons_zero, List.set_cons_succ, ht2, hd.2]
          · have he : (n + 1) + j = n + (j + 1) := by omega
            simp [diffList, hne, hdl, he]
        · simp only [subseqScan, if_neg hc, hscan, if_neg hd,
            Option.some.injEq, Prod.mk.injEq] at h
          obtain ⟨hc2, hs'⟩ := h
          subst hc2
          obtain ⟨j1, j2, hlt, hj2, ht1, ht2, hset, hs, hdl⟩ :=
            subseqScan_two_inv as bs (n + 1) s' hscan
          have hab : a = b := by cases a <;> cases b <;> simp_all
          refine ⟨j1 + 1, j2 + 1, by omega, by simpa using hj2,
            by simpa using ht1, by simpa using ht2, ?_, by omega, ?_⟩
          · simp [List.set_cons_succ, hset, hab]
          · have h1 : (n + 1) + j1 = n + (j1 + 1) := by omega
            have h2 : (n + 1) + j2 = n + (j2 + 1) := by omega
            simp [diffList, hab, hdl, h1, h2]

/-! ### Lemmas about the advancing constructor -/

lemma advance_single_none (p : CrossoutState) (a : Int) :
    advance p a 0 = none := by
  simp only [advance]
  split_ifs with h1 h2 h3 h4 h5
  all_goals first | rfl | exact absurd h2.1 (by omega)

lemma advance_two_eq (p : CrossoutState) (j1 j2 : Nat) (hne : j1 ≠ j2)
    (hj1 : j1 < p.tray.length) (hj2 : j2 < p.tray.length)
    (ht1 : p.tray.getD j1 false = true) (ht2 : p.tray.getD j2 false = true) :
    advance p ((j1 : Int) + 1) ((j2 : Int) + 1) =
      some ⟨p.MAX_SUM, (p.tray.set j1 false).set j2 false, !p.ourTurn,
        cacheHash ((p.tray.set j1 false).set j2 false) (!p.ourTurn)⟩ := by
  have e1 : ((j1 : Int) + 1 - 1).toNat = j1 := by omega
  have e2 : ((j2 : Int) + 1 - 1).toNat = j2 := by omega
  simp only [advance]
  split_ifs with h1 h2 h3 h4 h5
  · simp [e1, e2]
  · rw [e1, e2, getD_set_ne p.tray j1 j2 false false hne] at h5
    exact absurd ht2 h5
  · exact absurd (show (j2 : Int) + 1 - 1 > -1 by omega) h4
  · rw [e1] at h3; exact absurd ht1 h3
  · exact absurd ⟨by omega, by omega⟩ h2
  · exact absurd ⟨by omega, by omega⟩ h1

lemma advance_two_inv (p r : CrossoutState) (a b : Nat) (hb : 1 ≤ b)
    (h : advance p (a : Int) (b : Int) = some r) :
    1 ≤ a ∧ a - 1 < p.tray.length ∧ b - 1 < p.tray.length ∧ a ≠ b ∧
      p.tray.getD (a - 1) false = true ∧ p.tray.getD (b - 1) false = true ∧
      r = ⟨p.MAX_SUM, (p.tray.set (a - 1) false).set (b - 1) false, !p.ourTurn,
        cacheHash ((p.tray.set (a - 1) false).set (b - 1) false)
          (!p.ourTurn)⟩ := by
  simp only [advance] at h
  split_ifs at h with h1 h2 h3 h4 h5
  · have ha : 1 ≤ a := by omega
    have e1 : ((a : Int) - 1).toNat = a - 1 := by omega
    have e2 : ((b : Int) - 1).toNat = b - 1 := by omega
    rw [e1] at h3 h5 h
    rw [e2] at h5 h
    have hne : a ≠ b := by
      intro hab
      subst hab
      rw [getD_set_self p.tray (a - 1) false false (by omega)] at h5
      exact Bool.false_ne_true h5
    have hbl : b - 1 < p.tray.length := by omega
    refine ⟨ha, by omega, hbl, hne, h3, ?_, (Option.some.inj h).symm⟩
    rw [getD_set_ne p.tray (a - 1) (b - 1) false false (by omega)] at h5
    exact h5
  · exact absurd (show (b : Int) - 1 > -1 by omega) h4

/-! ### Lemmas about areSubsequent, the loop ranges and beq -/

lemma areSubsequent_of_set_one (p : CrossoutState) (j : Nat) (hc : Int)
    (hj : j < p.tray.length) (ht : p.tray.getD j false = true)
    (hM : (j : Int) + 1 ≤ p.MAX_SUM) :
    areSubsequent p ⟨p.MAX_SUM, p.tray.set j false, !p.ourTurn, hc⟩ = true := by
  have hscan := subseqScan_set_one p.tray j 1 hj ht
  simp only [areSubsequent]
  rw [if_neg (by simp), hscan]
  simp only [subseqCheck, MIN_TAKEN, MAX_TAKEN, decide_eq_true_eq]
  refine ⟨by omega, by omega, ?_⟩
  push_cast
  omega

lemma areSubsequent_of_set_two (p : CrossoutState) (j1 j2 : Nat) (hc : Int)
    (hne : j1 ≠ j2) (hj1 : j1 < p.tray.length) (hj2 : j2 < p.tray.length)
    (ht1 : p.tray.getD j1 false = true) (ht2 : p.tray.getD j2 false = true)
    (hM : ((j1 : Int) + 1) + ((j2 : Int) + 1) ≤ p.MAX_SUM) :
    areSubsequent p
      ⟨p.MAX_SUM, (p.tray.set j1 false).set j2 false, !p.ourTurn, hc⟩ = true := by
  have hscan := subseqScan_set_two p.tray j1 j2 1 hne hj1 hj2 ht1 ht2
  simp only [areSubsequent]
  rw [if_neg (by simp), hscan]
  simp only [subseqCheck, MIN_TAKEN, MAX_TAKEN, decide_eq_true_eq]
  refine ⟨by omega, by omega, ?_⟩
  push_cast
  omega

lemma mem_firstRange (p : CrossoutState) (f : Nat) (h : f ∈ firstRange p) :
    1 ≤ f ∧ f ≤ p.tray.length ∧ (f : Int) ≤ p.MAX_SUM := by
  simp only [firstRange, List.mem_map, List.mem_range] at h
  obtain ⟨k, hk, rfl⟩ := h
  refine ⟨by omega, by omega, by omega⟩

lemma mem_secondRange (p : CrossoutState) (first snd : Nat)
    (h : snd ∈ secondRange p first) :
    1 ≤ snd ∧ snd ≤ p.tray.length ∧
      (first : Int) + (snd : Int) ≤ p.MAX_SUM := by
  simp only [secondRange, List.mem_map, List.mem_range] at h
  obtain ⟨k, hk, rfl⟩ := h
  refine ⟨by omega, by omega, by omega⟩

lemma succInner_mem (p : CrossoutState) (first : Nat) :
    ∀ (ss : List Nat) (l : List CrossoutState), succInner p first ss = some l →
      ∀ s ∈ l, ∃ snd, snd ∈ ss ∧ advance p (first : Int) (snd : Int) = some s
  | [], l, h, s, hs => by
    simp only [succInner, Option.some.injEq] at h
    subst h
    simp at hs
  | second :: rest, l, h, s, hs => by
    by_cases hp : p.tray.getD (second - 1) false = true
    · simp only [succInner, if_pos hp, Option.bind_eq_some,
        Option.map_eq_some'] at h
      obtain ⟨st, hadv, l', hrest, rfl⟩ := h
      rcases List.mem_cons.mp hs with rfl | hsl
      · exact ⟨second, List.mem_cons_self second rest, hadv⟩
      · obtain ⟨snd, hsnd, ha⟩ := succInner_mem p first rest l' hrest s hsl
        exact ⟨snd, List.mem_cons_of_mem second hsnd, ha⟩
    · simp only [succInner, if_neg hp] at h
      obtain ⟨snd, hsnd, ha⟩ := succInner_mem p first rest l h s hs
      exact ⟨snd, List.mem_cons_of_mem second hsnd, ha⟩

lemma succOuter_mem (p : CrossoutState) :
    ∀ (fs : List Nat) (l : List CrossoutState), succOuter p fs = some l →
      ∀ s ∈ l, ∃ f, f ∈ fs ∧ (advance p (f : Int) 0 = some s ∨
        ∃ snd, snd ∈ secondRange p f ∧
          advance p (f : Int) (snd : Int) = some s)
  | [], l, h, s, hs => by
    simp only [succOuter, Option.some.injEq] at h
    subst h
    simp at hs
  | first :: rest, l, h, s, hs => by
    by_cases hp : p.tray.getD (first - 1) false = true
    · simp only [succOuter, if_pos hp, Option.bind_eq_some,
        Option.map_eq_some'] at h
      obtain ⟨st, hadv, inner, hinner, l', hrest, rfl⟩ := h
      rcases List.mem_cons.mp hs with rfl | hsl
      · exact ⟨first, List.mem_cons_self first rest, Or.inl hadv⟩
      · rcases List.mem_append.mp hsl with hin | hout
        · obtain ⟨snd, hsnd, ha⟩ :=
            succInner_mem p first (secondRange p first) inner hinner s hin
          exact ⟨first, List.mem_cons_self first rest, Or.inr ⟨snd, hsnd, ha⟩⟩
        · obtain ⟨f, hf, ha⟩ := succOuter_mem p rest l' hrest s hout
          exact ⟨f, List.mem_cons_of_mem first hf, ha⟩
    · simp only [succOuter, if_neg hp] at h
      obtain ⟨f, hf, ha⟩ := succOuter_mem p rest l h s hs
      exact ⟨f, List.mem_cons_of_mem first hf, ha⟩

lemma beq_some_true (p q : CrossoutState) (hM : p.MAX_SUM = q.MAX_SUM)
    (ht : p.tray = q.tray) (hu : p.ourTurn = q.ourTurn) :
    beq p q = some true := by
  simp [beq, hM, ht, hu, isPrefixOf_self]

end CrossoutState

/-! ### Claims -/

/-- Claim C4: for every Crossout position `P` and every `S` in
`successors(P)` (whenever the enumeration completes rather than aborting,
which is the only way `successors` produces states at all),
`areSubsequent(P, S)` returns true. -/
theorem C4_successors_are_subsequent (p : CrossoutState)
    (l : List CrossoutState) (h : CrossoutState.successors p = some l) :
    ∀ s ∈ l, CrossoutState.areSubsequent p s = true := by
  intro s hs
  obtain ⟨f, hf, hcase⟩ :=
    CrossoutState.succOuter_mem p (CrossoutState.firstRange p) l h s hs
  obtain ⟨hf1, hf2, hfM⟩ := CrossoutState.mem_firstRange p f hf
  rcases hcase with hadv | ⟨snd, hsnd, hadv⟩
  · rw [CrossoutState.advance_single_none p (f : Int)] at hadv
    exact absurd hadv (by simp)
  · obtain ⟨hs1, hs2, hsM⟩ := CrossoutState.mem_secondRange p f snd hsnd
    obtain ⟨ha1, hj1, hj2, hne, ht1, ht2, rfl⟩ :=
      CrossoutState.advance_two_inv p s f snd hs1 hadv
    exact CrossoutState.areSubsequent_of_set_two p (f - 1) (snd - 1) _
      (by omega) hj1 hj2 ht1 ht2 (by omega)

/-- A Crossout position whose successor enumeration completes: only the
number 3 is present under bound 2, so the loop skips slots 1 and 2 (absent)
and never reaches a constructor call.  Because every single-theft
construction aborts at the converted bounds assert, a completed enumeration
is necessarily empty: any present number within the bound would be pushed as
a sole removal first and abort the run. -/
def c4Base : CrossoutState := ⟨2, [false, false, true], false, 0⟩

theorem C4_witness :
    CrossoutState.successors c4Base = some [] ∧
      ∀ s ∈ ([] : List CrossoutState),
        CrossoutState.areSubsequent c4Base s = true :=
  ⟨by decide, C4_successors_are_subsequent c4Base [] (by decide)⟩

/-- A Crossout position with numbers 1 and 2 present under bound 3. -/
def c7Base : CrossoutState := CrossoutState.initial 3 2 true

/-- The position obtained from `c7Base` by crossing out the number 1. -/
def c7Next : CrossoutState := ⟨3, [false, true], false, 2⟩

/-- Claim C7 (failing input): `c7Base` has numbers 1 and 2 present under
bound 3 and `c7Next` is one legal move away (number 1 removed), so
`areSubsequent` holds and `diff` returns the removed number `[1]`; but
applying that descriptor via the one-argument advancing constructor
`CrossoutState( c7Base, 1 )` aborts — after the decrements the `int` sentinel
`secondTheft = -1` converts to `size_type` in
`assert( secondTheft<tray.size() )` and the assert fires (modelled as
`none`) — instead of yielding a position equal to `c7Next`.  Two-number
descriptors do reapply correctly (cf. claim C10). -/
theorem C7_single_reapplication_aborts :
    CrossoutState.areSubsequent c7Base c7Next = true ∧
      CrossoutState.diff c7Base c7Next = some [1] ∧
      CrossoutState.advance c7Base 1 0 = none := by
  decide

/-- Claim C5 counterexample: two Crossout positions that `operator==` calls
equal (the shorter tray is a prefix of the longer one, and `operator==` never
compares the sizes) but whose hashes differ, refuting "P == Q implies
hash(P) == hash(Q)" as stated. -/
theorem C5_claim_counterexample :
    CrossoutState.beq (CrossoutState.initial 1 1 true)
        (CrossoutState.initial 1 2 true) = some true ∧
      CrossoutState.hash (CrossoutState.initial 1 1 true) ≠
        CrossoutState.hash (CrossoutState.initial 1 2 true) := by
  decide

/-- Claim C5 (amended): for positions with equal tray sizes and up-to-date
hash caches, `P == Q` implies `hash(P) == hash(Q)`. -/
theorem C5_hash_equal_of_beq (p q : CrossoutState)
    (hp : p.hashCode = CrossoutState.cacheHash p.tray p.ourTurn)
    (hq : q.hashCode = CrossoutState.cacheHash q.tray q.ourTurn)
    (hlen : p.tray.length = q.tray.length)
    (heq : CrossoutState.beq p q = some true) :
    CrossoutState.hash p = CrossoutState.hash q := by
  simp only [CrossoutState.beq] at heq
  rw [if_neg (by omega)] at heq
  simp only [Option.some.injEq, Bool.and_eq_true, beq_iff_eq,
    decide_eq_true_eq] at heq
  obtain ⟨⟨hM, hpre⟩, hturn⟩ := heq
  have htray : p.tray = q.tray :=
    eq_of_isPrefixOf_of_length p.tray q.tray hpre hlen
  simp [CrossoutState.hash, hp, hq, htray, hturn]

theorem C5_witness :
    CrossoutState.hash (CrossoutState.initial 3 2 true) =
      CrossoutState.hash (CrossoutState.initial 3 2 true) :=
  C5_hash_equal_of_beq (CrossoutState.initial 3 2 true)
    (CrossoutState.initial 3 2 true) rfl rfl rfl (by decide)

/-- Claim C6 counterexample: `CrossoutState::operator==` accepts two positions
whose trays are different (different sizes, matching prefix), refuting
"P == Q iff the full state representations match element-wise". -/
theorem C6_claim_counterexample :
    CrossoutState.beq (CrossoutState.initial 1 1 true)
        (CrossoutState.initial 1 2 true) = some true ∧
      (CrossoutState.initial 1 1 true).tray ≠
        (CrossoutState.initial 1 2 true).tray := by
  decide

/-- Claim C6 (amended): Kayles equality is exactly turn plus element-wise pin
equality; Crossout equality restricted to equal-size trays is exactly turn,
sum bound and element-wise tray equality; and neither comparison reads the
cached `hashCode`. -/
theorem C6_equality_characterisation :
    (∀ p q : KaylesState, KaylesState.beq p q = true ↔
      p.ourTurn = q.ourTurn ∧ p.pins = q.pins) ∧
    (∀ p q : CrossoutState, p.tray.length = q.tray.length →
      (CrossoutState.beq p q = some true ↔
        p.MAX_SUM = q.MAX_SUM ∧ p.tray = q.tray ∧ p.ourTurn = q.ourTurn)) ∧
    (∀ (p q : CrossoutState) (a b : Int),
      CrossoutState.beq ⟨p.MAX_SUM, p.tray, p.ourTurn, a⟩
        ⟨q.MAX_SUM, q.tray, q.ourTurn, b⟩ = CrossoutState.beq p q) ∧
    (∀ (p q : KaylesState) (a b : Int),
      KaylesState.beq ⟨p.pins, p.ourTurn, a⟩ ⟨q.pins, q.ourTurn, b⟩ =
        KaylesState.beq p q) := by
  refine ⟨?_, ?_, fun p q a b => rfl, fun p q a b => rfl⟩
  · intro p q
    constructor
    · intro hb
      simp only [KaylesState.beq, Bool.and_eq_true, beq_iff_eq] at hb
      exact ⟨hb.1.1, eq_of_isPrefixOf_of_length p.pins q.pins hb.2 hb.1.2⟩
    · rintro ⟨ht, hp⟩
      simp [KaylesState.beq, ht, hp, isPrefixOf_self]
  · intro p q hlen
    constructor
    · intro hb
      simp only [CrossoutState.beq] at hb
      rw [if_neg (by omega)] at hb
      simp only [Option.some.injEq, Bool.and_eq_true, beq_iff_eq,
        decide_eq_true_eq] at hb
      exact ⟨hb.1.1, eq_of_isPrefixOf_of_length p.tray q.tray hb.1.2 hlen,
        hb.2⟩
    · rintro ⟨hM, ht, hu⟩
      exact CrossoutState.beq_some_true p q hM ht hu

theorem C6_witness :
    CrossoutState.beq (CrossoutState.initial 2 2 true)
      (CrossoutState.initial 2 2 true) = some true :=
  (C6_equality_characterisation.2.1 (CrossoutState.initial 2 2 true)
    (CrossoutState.initial 2 2 true) rfl).mpr ⟨rfl, rfl, rfl⟩

/-- Claim C8: in a terminal Kayles or Crossout position the side to move has
lost (`LOSS` when the engine is up, `VICTORY` when the opponent is up), and a
non-terminal position scores `TIE`. -/
theorem C8_terminal_scoring :
    (∀ k : KaylesState, k.gameOver = true → k.ourTurn = true →
      k.scoreGame = Score.LOSS) ∧
    (∀ k : KaylesState, k.gameOver = true → k.ourTurn = false →
      k.scoreGame = Score.VICTORY) ∧
    (∀ k : KaylesState, k.gameOver = false → k.scoreGame = Score.TIE) ∧
    (∀ c : CrossoutState, c.gameOver = true → c.ourTurn = true →
      c.scoreGame = Score.LOSS) ∧
    (∀ c : CrossoutState, c.gameOver = true → c.ourTurn = false →
      c.scoreGame = Score.VICTORY) ∧
    (∀ c : CrossoutState, c.gameOver = false → c.scoreGame = Score.TIE) := by
  refine ⟨fun k h1 h2 => ?_, fun k h1 h2 => ?_, fun k h1 => ?_,
    fun c h1 h2 => ?_, fun c h1 h2 => ?_, fun c h1 => ?_⟩ <;>
    simp [KaylesState.scoreGame, CrossoutState.scoreGame, h1]
  · simp [h2]
  · simp [h2]
  · simp [h2]
  · simp [h2]

theorem C8_witness :
    KaylesState.scoreGame ⟨[], true, 0⟩ = Score.LOSS ∧
      CrossoutState.scoreGame (CrossoutState.initial 3 0 false) =
        Score.VICTORY :=
  ⟨C8_terminal_scoring.1 ⟨[], true, 0⟩ (by decide) rfl,
   C8_terminal_scoring.2.2.2.2.1 (CrossoutState.initial 3 0 false)
     (by decide) rfl⟩

/-- Claim C9 counterexample: `Connect3State::hasSpaceAt` with an out-of-range
column does not report a sentinel value — it aborts via
`assert( column<COLUMNS )` (modelled as `none`), refuting the claim for the
`hasSpaceAt` half. -/
theorem C9_claim_counterexample :
    Connect3State.hasSpaceAt ⟨1, 1, 0, [[]], true, Score.TIE, 0⟩ 1 = none := by
  decide

/-- Claim C9 (amended): `KaylesState::pinsInGroup` returns the sentinel `-1`
on a non-existent group and the stored count otherwise, while
`Connect3State::hasSpaceAt` asserts its precondition and aborts (modelled as
`none`) on an out-of-range column, answering only in-range queries. -/
theorem C9_sentinel_queries :
    (∀ (k : KaylesState) (group : Nat), k.pins.length ≤ group →
      k.pinsInGroup group = -1) ∧
    (∀ (k : KaylesState) (group : Nat), group < k.pins.length →
      k.pinsInGroup group = k.pins.getD group 0) ∧
    (∀ (s : Connect3State) (column : Nat), s.COLUMNS ≤ column →
      s.hasSpaceAt column = none) ∧
    (∀ (s : Connect3State) (column : Nat), column < s.COLUMNS →
      s.hasSpaceAt column =
        some (decide ((s.board.getD column []).length < s.ELEMENTS))) := by
  refine ⟨?_, ?_, ?_, ?_⟩
  · intro k g h
    simp [KaylesState.pinsInGroup, h]
  · intro k g h
    simp only [KaylesState.pinsInGroup, if_neg (by omega : ¬k.pins.length ≤ g)]
  · intro s c h
    simp only [Connect3State.hasSpaceAt]
    rw [if_neg (by omega)]
  · intro s c h
    simp [Connect3State.hasSpaceAt, h]

theorem C9_witness :
    KaylesState.pinsInGroup ⟨[3], true, 0⟩ 5 = -1 ∧
      Connect3State.hasSpaceAt ⟨2, 3, 0, [[], []], true, Score.TIE, 0⟩ 2 =
        none :=
  ⟨C9_sentinel_queries.1 ⟨[3], true, 0⟩ 5 (by decide),
   C9_sentinel_queries.2.2.1 ⟨2, 3, 0, [[], []], true, Score.TIE, 0⟩ 2
     (by decide)⟩

/-- Claim C10: for in-range 1-based indices `a ≠ b` naming two present
numbers, the advancing constructor succeeds — the sum bound `MAX_SUM` is
never consulted — and crosses out exactly those two numbers, keeps every
other tray entry and `MAX_SUM`, and flips the turn; it aborts via assertion
when `a` or `b` names an absent number or when `a = b` (the first theft
crosses the number out, so the second presence assertion fails). -/
theorem C10_advancing_constructor (base : CrossoutState) (a b : Int)
    (ha1 : 1 ≤ a) (ha2 : a ≤ (base.tray.length : Int))
    (hb1 : 1 ≤ b) (hb2 : b ≤ (base.tray.length : Int)) :
    ((a ≠ b ∧ base.tray.getD (a - 1).toNat false = true ∧
        base.tray.getD (b - 1).toNat false = true) →
      ∃ r, CrossoutState.advance base a b = some r ∧
        r.MAX_SUM = base.MAX_SUM ∧ r.ourTurn = (!base.ourTurn) ∧
        r.tray.length = base.tray.length ∧
        r.tray.getD (a - 1).toNat false = false ∧
        r.tray.getD (b - 1).toNat false = false ∧
        (∀ j : Nat, j ≠ (a - 1).toNat → j ≠ (b - 1).toNat →
          r.tray.getD j false = base.tray.getD j false)) ∧
    ((a = b ∨ base.tray.getD (a - 1).toNat false = false ∨
        base.tray.getD (b - 1).toNat false = false) →
      CrossoutState.advance base a b = none) := by
  constructor
  · rintro ⟨hne, hta, htb⟩
    obtain ⟨ja, rfl⟩ : ∃ ja : Nat, a = (ja : Int) + 1 :=
      ⟨(a - 1).toNat, by omega⟩
    obtain ⟨jb, rfl⟩ : ∃ jb : Nat, b = (jb : Int) + 1 :=
      ⟨(b - 1).toNat, by omega⟩
    have ea : ((ja : Int) + 1 - 1).toNat = ja := by omega
    have eb : ((jb : Int) + 1 - 1).toNat = jb := by omega
    rw [ea] at hta
    rw [eb] at htb
    rw [ea, eb]
    have hadv := CrossoutState.advance_two_eq base ja jb (by omega) (by omega)
      (by omega) hta htb
    refine ⟨_, hadv, rfl, rfl, by simp, ?_, ?_, ?_⟩
    · rw [getD_set_ne (base.tray.set ja false) jb ja false false (by omega),
        getD_set_self base.tray ja false false (by omega)]
    · rw [getD_set_self (base.tray.set ja false) jb false false
        (by rw [List.length_set]; omega)]
    · intro j hja hjb
      rw [getD_set_ne (base.tray.set ja false) jb j false false (by omega),
        getD_set_ne base.tray ja j false false (by omega)]
  · rintro (hab | hta | htb)
    · subst hab
      simp only [CrossoutState.advance]
      split_ifs with h1 h2 h3 h4
      · rw [getD_set_self base.tray ((a : Int) - 1).toNat false false
          (by omega)] at h4
        exact absurd h4 (by simp)
      · rfl
      · exact absurd (show (a : Int) - 1 > -1 by omega) h3
      · rfl
      · rfl
    · simp only [CrossoutState.advance]
      split_ifs with h1 h2 h3 h4 h5
      · rw [hta] at h3
        exact absurd h3 (by simp)
      · rfl
      · rw [hta] at h3
        exact absurd h3 (by simp)
      · rfl
      · rfl
      · rfl
    · by_cases hab : a = b
      · subst hab
        simp only [CrossoutState.advance]
        split_ifs with h1 h2 h3 h4
        · rw [getD_set_self base.tray ((a : Int) - 1).toNat false false
            (by omega)] at h4
          exact absurd h4 (by simp)
        · rfl
        · exact absurd (show (a : Int) - 1 > -1 by omega) h3
        · rfl
        · rfl
      · simp only [CrossoutState.advance]
        split_ifs with h1 h2 h3 h4 h5
        · rw [getD_set_ne base.tray ((a : Int) - 1).toNat ((b : Int) - 1).toNat
            false false (by omega), htb] at h5
          exact absurd h5 (by simp)
        · rfl
        · exact absurd (show (b : Int) - 1 > -1 by omega) h4
        · rfl
        · rfl
        · rfl

theorem C10_witness :
    (CrossoutState.advance (CrossoutState.initial 2 3 true) 1 3).isSome =
      true := by
  obtain ⟨r, hr, -⟩ :=
    (C10_advancing_constructor (CrossoutState.initial 2 3 true) 1 3
      (by decide) (by decide) (by decide) (by decide)).1
      ⟨by decide, by decide, by decide⟩
  rw [hr]
  rfl

/-- Claim C1 (failing input): on the position with the single number 1 present
under bound 2, `successors` drives the advancing constructor into failing
assertions (modelled as `none`).  The sole-removal push
`CrossoutState( *this, 1 )` aborts at `assert( secondTheft<tray.size() )`
(the sentinel `-1` converted to `size_type`), and — independently, under
either reading of that assert — the inner loop restarts at `second = 1`, so
the self-pair call `CrossoutState( *this, 1, 1 )` (1 + 1 ≤ MAX_SUM) aborts at
the second presence assertion `assert( tray[secondTheft] )`, the number
having just been crossed out.  Either way `successors` does not produce only
legal moves. -/
theorem C1_successors_fire_assertion :
    CrossoutState.successors (CrossoutState.initial 2 1 true) = none ∧
      CrossoutState.advance (CrossoutState.initial 2 1 true) 1 1 = none := by
  decide

/-- Claim C2 (failing input): after crossing 1 and 2 out of the position with
numbers 1..3 under bound 3 (a reachable state, first conjunct), `gameOver`
reports true — its loop only inspects `tray[0]` and `tray[1]`
(`location < MAX_TAKEN`) — even though the number 3 is still present and
removing it alone is a legal move, as witnessed by `areSubsequent` accepting
the transition to the emptied tray. -/
theorem C2_gameOver_despite_legal_move :
    CrossoutState.advance (CrossoutState.initial 3 3 true) 1 2 =
        some ⟨3, [false, false, true], false, 4⟩ ∧
      CrossoutState.gameOver ⟨3, [false, false, true], false, 4⟩ = true ∧
      CrossoutState.areSubsequent ⟨3, [false, false, true], false, 4⟩
        ⟨3, [false, false, false], true, 8⟩ = true := by
  decide

/-- Claim C3 (failing input): with numbers 1 and 2 present under bound 3 the
claim expects `successors` to enumerate the sole removals of 1 and of 2 and
the pair removal of 1 and 2 exactly once; instead the enumeration aborts
(modelled as `none`) before ever emitting that pair — at the very first
sole-removal push `CrossoutState( *this, 1 )` (the converted bounds assert),
and even under a signed reading of that assert at the self-pair `( 1, 1 )`
which the inner loop, restarting at `second = 1`, reaches before `( 1, 2 )`.
No pair is ever produced. -/
theorem C3_successors_abort_before_pairs :
    CrossoutState.successors (CrossoutState.initial 3 2 true) = none := by
  decide
